import Mathlib

/-!
Verification of the TradeSenpai hypothesis-engine streaming client.

The subject is the event-stream consumer in `HypothesisPage.submit`
(frontend component file, decode loop): it reads byte chunks, appends each
chunk to a rolling string buffer, splits the buffer on the blank-line
delimiter "\n\n" (JavaScript `buffer.split("\n\n")`), pops the trailing
(possibly incomplete) segment back into the buffer, and for each completed
frame checks the "data: " prefix, JSON-parses the remainder, and applies the
decoded message to the page state (per-step statuses, brief, loading flag,
error box).

Modelling conventions:
* The byte stream is modelled as a stream of characters (`List Char`).  The
  JavaScript `TextDecoder` with `stream: true` reassembles UTF-8 code points
  split across chunk boundaries, so after text decoding a chunked byte
  stream is exactly a chunked character stream; the delimiter characters are
  ASCII.
* `JSON.parse` is a browser built-in, not repository code; it is modelled as
  an arbitrary parameter `parse : List Char → Option Msg` (`none` models a
  thrown exception, which the loop catches and logs).  Payload numbers are
  modelled as integers; the decimal formatting of `Number.toFixed` is
  abstracted by `toString`.
* React state setters (`setSteps`, `setBrief`, ...) are modelled as a pure
  state record `ClientState` updated functionally, in the order the
  handlers execute.
-/

set_option autoImplicit false

namespace TradeSenpai

/-! ## The frame scanner

`scanNN s` models one round of `buffer.split("\n\n")` followed by
`lines.pop()`: the first component is the list of completed frames (all
split segments except the last, in order) and the second component is the
trailing segment that JavaScript pushes back into `buffer`.  JavaScript
`String.split` cuts at every leftmost non-overlapping occurrence of the
delimiter, which is exactly the left-to-right two-character scan below. -/

/-- Prepend character `c` to the first (currently open) segment of a
scanner result; if no segment is open, `c` lands in the trailing buffer. -/
def consCur (c : Char) : List (List Char) × List Char → List (List Char) × List Char
  | ([], r) => ([], c :: r)
  | (e :: es, r) => ((c :: e) :: es, r)

/-- Leftmost scan for the "\n\n" delimiter: completed frames and trailing
fragment, i.e. `(init of split, last of split)` for JavaScript
`split("\n\n")`. -/
def scanNN : List Char → List (List Char) × List Char
  | [] => ([], [])
  | [c] => ([], [c])
  | c :: d :: rest =>
    if c = '\n' ∧ d = '\n' then
      (([] : List Char) :: (scanNN rest).1, (scanNN rest).2)
    else
      consCur c (scanNN (d :: rest))

/-- Whether the two-character delimiter occurs anywhere in the string. -/
def hasNN : List Char → Bool
  | [] => false
  | [_] => false
  | c :: d :: rest => (c = '\n' && d = '\n') || hasNN (d :: rest)

/-- The chunk loop of `HypothesisPage.submit` at frame granularity: for each
arriving chunk, `buffer += chunk; lines = buffer.split("\n\n");
buffer = lines.pop()`, emitting the completed frames of every round in
order.  When the reader reports `done` the loop breaks and the final buffer
content is dropped. -/
def feedChunks : List Char → List (List Char) → List (List Char)
  | _, [] => []
  | buf, c :: cs => (scanNN (buf ++ c)).1 ++ feedChunks (scanNN (buf ++ c)).2 cs

/-- Concatenation of all chunks: the stream decoded "as one block". -/
def joinAll : List (List Char) → List Char
  | [] => []
  | c :: cs => c ++ joinAll cs

/-! ## Decoded messages and the page state

`Msg` models the JSON object produced by `JSON.parse(line.slice(6))`.
Optional JSON fields are `Option`s (`none` = the field is absent /
`undefined`).  Numeric payloads are modelled as integers. -/

/-- The synthesized research brief as the client reads it (§3 of the
specification; the fields the page renders).  Only `feasibility_score` and
the text fields matter for the claims; nested sub-records are out of the
decode loop's scope. -/
structure ResearchBrief where
  ticker : String := ""
  hypothesis_clean : String := ""
  feasibility_score : Int := 0
  implied_return_pct : Option Int := none
  summary : String := ""
  disclaimer : String := ""
deriving DecidableEq

structure Msg where
  status : String
  step : Option Int := none
  ticker : Option String := none
  price : Option Int := none
  rsi : Option Int := none
  base_rate : Option Int := none
  risks_found : Option Int := none
  catalysts_found : Option Int := none
  message : Option String := none
  brief : Option ResearchBrief := none
deriving DecidableEq

/-- Per-step status, the comment in the source: `idle | running | done | error`. -/
inductive StepStatus where
  | idle
  | running
  | done
  | error
deriving DecidableEq

/-- One row of the steps panel: `{ id, label, status, detail }`. -/
structure Step where
  id : Int
  label : String
  status : StepStatus
  detail : String
deriving DecidableEq

/-- The `STEPS` constant of the source, with the initial
`status: "idle", detail: ""` added by the `useState` initializer. -/
def STEPS : List Step :=
  [ ⟨1, "PARSING HYPOTHESIS", .idle, ""⟩,
    ⟨2, "COLLECTING MARKET CONTEXT", .idle, ""⟩,
    ⟨3, "SCANNING HISTORICAL EVIDENCE", .idle, ""⟩,
    ⟨4, "RESEARCHING BEAR CASE", .idle, ""⟩,
    ⟨5, "RESEARCHING BULL CASE", .idle, ""⟩,
    ⟨6, "SYNTHESIZING RESEARCH BRIEF", .idle, ""⟩ ]

/-- The React state of `HypothesisPage` touched by the decode loop:
`steps`, `brief`, `loading`, `error`. -/
structure ClientState where
  steps : List Step
  brief : Option ResearchBrief
  loading : Bool
  error : Option String
deriving DecidableEq

/-- State right after `submit` resets it: `setLoading(true); setError(null);
setBrief(null); setSteps(idle)`. -/
def initState : ClientState :=
  { steps := STEPS, brief := none, loading := true, error := none }

/-- JavaScript truthiness of an optional string (`undefined` and `""` are
falsy). -/
def truthyStr : Option String → Bool
  | Option.none => false
  | Option.some s => s != ""

/-- JavaScript truthiness of an optional number (`undefined` and `0` are
falsy). -/
def truthyNum : Option Int → Bool
  | Option.none => false
  | Option.some n => n != 0

/-- JavaScript `msg.step > 0` (false when `step` is `undefined`). -/
def jsGtZero : Option Int → Bool
  | Option.none => false
  | Option.some n => decide (0 < n)

/-- Rendering of `v?.toFixed(k)` inside a template string: an absent value
interpolates as the text "undefined"; decimal formatting of the present
integer payload is abstracted by `toString`. -/
def optNumText (o : Option Int) : String :=
  match o with
  | Option.none => "undefined"
  | Option.some n => toString n

def renderTicker (m : Msg) : String := "→ " ++ m.ticker.getD ""

def renderPrice (m : Msg) : String :=
  "→ $" ++ optNumText m.price ++ " · RSI " ++ optNumText m.rsi

def renderBaseRate (m : Msg) : String :=
  "→ base rate " ++ toString (m.base_rate.getD 0) ++ "%"

def renderRisks (m : Msg) : String :=
  "→ " ++ toString (m.risks_found.getD 0) ++ " risks identified"

def renderCatalysts (m : Msg) : String :=
  "→ " ++ toString (m.catalysts_found.getD 0) ++ " catalysts identified"

/-- The detail-string derivation of the `done` branch: a chain of
re-assignments `let detail = ""` then one `if` per optional field, each
overwriting the previous value; `base_rate` alone is tested with
`!= null`, the others with plain truthiness. -/
def detailOf (m : Msg) : String :=
  let d := ""
  let d := if truthyStr m.ticker then renderTicker m else d
  let d := if truthyNum m.price then renderPrice m else d
  let d := if m.base_rate.isSome then renderBaseRate m else d
  let d := if truthyNum m.risks_found then renderRisks m else d
  let d := if truthyNum m.catalysts_found then renderCatalysts m else d
  d

/-- Modelled from the spec: the helper `updateStep` is called by
`HypothesisPage.submit` (with a step id, a status string, and for
`done`/`error` a detail string) but its definition is not among the source
files.  §4.3 of the specification describes its effect — "mark step
running, clear its detail text", "mark step done", "mark that step failed
with `message`" — modelled as an unconditional update of the fields of the
step whose id equals the given id, leaving every other step unchanged.
A call with an absent id (`undefined`) matches no step. -/
def updateStep (id : Option Int) (status : StepStatus) (detail : String)
    (steps : List Step) : List Step :=
  steps.map fun s => if Option.some s.id = id then { s with status := status, detail := detail } else s

/-- JavaScript `msg.message || "Analysis failed."` (an absent or empty
message falls back to the default). -/
def msgOrDefault (m : Msg) : String :=
  match m.message with
  | Option.none => "Analysis failed."
  | Option.some s => if s = "" then "Analysis failed." else s

/-- The event dispatch of the decode loop: the `if/else if` chain on
`msg.status`.  `running` marks the step running with a cleared detail;
`done` marks it done with the derived detail; `complete` stores the brief
and clears `loading`; `error` with positive step marks that step failed,
otherwise sets the page-level error, clearing `loading` either way.  An
unrecognized status changes nothing. -/
def applyMsg (st : ClientState) (m : Msg) : ClientState :=
  if m.status = "running" then
    { st with steps := updateStep m.step .running "" st.steps }
  else if m.status = "done" then
    { st with steps := updateStep m.step .done (detailOf m) st.steps }
  else if m.status = "complete" then
    { st with brief := m.brief, loading := false }
  else if m.status = "error" then
    if jsGtZero m.step then
      { st with steps := updateStep m.step .error (m.message.getD "") st.steps,
                loading := false }
    else
      { st with error := Option.some (msgOrDefault m), loading := false }
  else st

def applyMsgs (st : ClientState) (ms : List Msg) : ClientState :=
  ms.foldl applyMsg st

/-- The six characters of the `"data: "` frame marker. -/
def dataMarker : List Char := "data: ".toList

/-- One iteration of `for (const line of lines)`: skip the line unless it
starts with `"data: "` (the `startsWith` test is `take 6 = marker` since
the marker has six characters), then `JSON.parse(line.slice(6))`; a parse
exception is caught, logged and yields no message. -/
def handleLine (parse : List Char → Option Msg) (line : List Char) : Option Msg :=
  if line.take 6 = dataMarker then parse (line.drop 6) else Option.none

/-- Folding the per-line dispatch over a list of completed frames. -/
def processLines (parse : List Char → Option Msg) (st : ClientState)
    (lines : List (List Char)) : ClientState :=
  lines.foldl
    (fun s l =>
      match handleLine parse l with
      | Option.none => s
      | Option.some m => applyMsg s m)
    st

/-- The ordered sequence of messages the loop decodes from a chunked
stream. -/
def streamEvents (parse : List Char → Option Msg)
    (chunks : List (List Char)) : List Msg :=
  (feedChunks [] chunks).filterMap (handleLine parse)

/-- The full read loop of `submit`, chunk by chunk: scan the buffer, apply
all completed frames, carry the trailing fragment to the next read. -/
def clientLoop (parse : List Char → Option Msg) (st : ClientState)
    (buf : List Char) : List (List Char) → ClientState
  | [] => st
  | c :: cs =>
    clientLoop parse (processLines parse st (scanNN (buf ++ c)).1)
      (scanNN (buf ++ c)).2 cs

/-- State of the page after the whole stream has been consumed. -/
def clientRun (parse : List Char → Option Msg) (chunks : List (List Char)) : ClientState :=
  clientLoop parse initState [] chunks

/-! ## Spec-modelled backend: result synthesizer and pipeline

The backend of the hypothesis engine (pipeline executor, stage handlers and
result synthesizer, §4.1/§4.4 of the specification) is not among the source
files; only its clients are.  The definitions below are modelled from the
spec and carry a `Modelled from the spec:` note. -/

/-- Clamp an integer into `[lo, hi]`. -/
def clampInt (lo hi x : Int) : Int := max lo (min hi x)

/-- Modelled from the spec: the Result Synthesizer's `feasibility_score`
(§4.4) — "the sum of three bounded sub-scores — a historical-base-rate
component (cap 40), a technical-alignment component (cap 30), and a
realism-penalty component (cap 30) — clamped to [0,100]".  The exact
weighting that produces the raw sub-scores is an implementation parameter,
so the raw sub-scores are taken as inputs. -/
def feasibilityScore (baseRateSub techSub realismSub : Int) : Int :=
  clampInt 0 100
    (clampInt 0 40 baseRateSub + clampInt 0 30 techSub + clampInt 0 30 realismSub)

/-- Modelled from the spec: the synthesize stage's output record (§4.4);
`disclaimer` and `feasibility_score` are always populated. -/
def synthesizeBrief (tick hyp : String) (baseRateSub techSub realismSub : Int)
    (summary disclaimer : String) : ResearchBrief :=
  { ticker := tick
    hypothesis_clean := hyp
    feasibility_score := feasibilityScore baseRateSub techSub realismSub
    implied_return_pct := Option.none
    summary := summary
    disclaimer := disclaimer }

/-- Growing pipeline context (§2, §3): the executor merges stage outputs
into it. -/
structure PipeCtx where
  hypothesis : String := ""
  ticker : String := ""
  price : Int := 0
  rsi : Int := 0
  base_rate : Int := 0

/-- A lifecycle event of a pipeline run (the wire-level `StreamEvent`). -/
inductive Event where
  | running (step : Int)
  | done (step : Int)
  | error (step : Int) (message : String)
  | complete (brief : ResearchBrief)
deriving DecidableEq

/-- Modelled from the spec: the six stage handlers (§2, §6), each an
asynchronous call modelled as a fallible function.  The bear-case and
bull-case handlers both receive the same read-only context snapshot
(§4.1). -/
structure Handlers where
  parseStage : String → Except String PipeCtx
  marketStage : PipeCtx → Except String PipeCtx
  historyStage : PipeCtx → Except String PipeCtx
  bearStage : PipeCtx → Except String (List String)
  bullStage : PipeCtx → Except String (List String)
  synthStage : PipeCtx → List String → List String → Except String ResearchBrief

/-- Modelled from the spec: the streaming pipeline executor (§4.1) —
`running` immediately before each handler, `done`/`error` immediately
after; a parse failure is a step-0 error; any stage failure is fatal and
stops scheduling; the final stage emits `complete` with the brief.  The
concurrent bear/bull stages are serialized here (both are invoked on the
same snapshot `c3`; the protocol does not promise their completion
order). -/
def runStream (h : Handlers) (req : String) : List Event :=
  Event.running 1 ::
    match h.parseStage req with
    | .error m => [Event.error 0 m]
    | .ok c1 =>
      Event.done 1 :: Event.running 2 ::
        match h.marketStage c1 with
        | .error m => [Event.error 2 m]
        | .ok c2 =>
          Event.done 2 :: Event.running 3 ::
            match h.historyStage c2 with
            | .error m => [Event.error 3 m]
            | .ok c3 =>
              Event.done 3 :: Event.running 4 :: Event.running 5 ::
                match h.bearStage c3 with
                | .error m => [Event.error 4 m]
                | .ok bear =>
                  Event.done 4 ::
                    match h.bullStage c3 with
                    | .error m => [Event.error 5 m]
                    | .ok bull =>
                      Event.done 5 :: Event.running 6 ::
                        match h.synthStage c3 bear bull with
                        | .error m => [Event.error 6 m]
                        | .ok b => [Event.complete b]

/-- Modelled from the spec: the non-streaming variant (§4.4, §6) — the same
stages in the same order with the same failure attribution, but buffering
internally and returning only the terminal result (the brief, or one error
with its step index) in a single response; no intermediate per-stage events
appear in its type.  Its client is the synchronous `HypothesisPage.submit`,
which POSTs once and reads either the brief or an error detail. -/
def runSync (h : Handlers) (req : String) : Except (Int × String) ResearchBrief :=
  match h.parseStage req with
  | .error m => .error (0, m)
  | .ok c1 =>
    match h.marketStage c1 with
    | .error m => .error (2, m)
    | .ok c2 =>
      match h.historyStage c2 with
      | .error m => .error (3, m)
      | .ok c3 =>
        match h.bearStage c3 with
        | .error m => .error (4, m)
        | .ok bear =>
          match h.bullStage c3 with
          | .error m => .error (5, m)
          | .ok bull =>
            match h.synthStage c3 bear bull with
            | .error m => .error (6, m)
            | .ok b => .ok b

/-- The terminal outcome carried by an event stream: the payload of its
last event when that event is `complete` or `error`. -/
def terminalOf : List Event → Option (Except (Int × String) ResearchBrief)
  | [] => Option.none
  | e :: es =>
    match es with
    | [] =>
      match e with
      | Event.complete b => Option.some (Except.ok b)
      | Event.error s m => Option.some (Except.error (s, m))
      | _ => Option.none
    | e2 :: es2 => terminalOf (e2 :: es2)

def isTerminal : Event → Bool
  | Event.complete _ => true
  | Event.error _ _ => true
  | _ => false

/-- Number of terminal (`complete`/`error`) events in a stream. -/
def countTerminals : List Event → Nat
  | [] => 0
  | e :: es => (if isTerminal e then 1 else 0) + countTerminals es

/-! ## State-machine bookkeeping used by the per-step monotonicity claims -/

/-- Status of the step with the given id (idle when no such step exists),
as the steps panel reads it. -/
def stFind (steps : List Step) (i : Int) : StepStatus :=
  match steps.find? (fun s => s.id == i) with
  | Option.some s => s.status
  | Option.none => .idle

/-- The step-i status written by one message, if any: `running`/`done`
target the step named by `msg.step`; `error` only when `msg.step > 0`. -/
def stepEv (i : Int) (m : Msg) : Option StepStatus :=
  if m.status = "running" ∧ m.step = Option.some i then Option.some .running
  else if m.status = "done" ∧ m.step = Option.some i then Option.some .done
  else if m.status = "error" ∧ m.step = Option.some i ∧ jsGtZero m.step then Option.some .error
  else Option.none

/-- The per-step projection of an event sequence. -/
def projEv (i : Int) (ms : List Msg) : List StepStatus :=
  ms.filterMap (stepEv i)

/-- Legal transitions of the per-step protocol (§4.3, §8): from `idle` one
optional `running` or a direct terminal, from `running` one terminal,
nothing after a terminal. -/
def stepTrans : StepStatus → StepStatus → Bool
  | .idle, .running => true
  | .idle, .done => true
  | .idle, .error => true
  | .running, .done => true
  | .running, .error => true
  | _, _ => false

/-- A per-step event word is well formed from state `s` when each event is
a legal protocol transition from the state reached so far. -/
def wfFrom : StepStatus → List StepStatus → Bool
  | _, [] => true
  | s, e :: es => stepTrans s e && wfFrom e es

/-- Reachability order of the per-step state machine
`idle → running → {done | error}`: `statusLe a b` says `b` is reachable
from `a` without ever leaving a terminal state or re-entering `running`. -/
def statusLe : StepStatus → StepStatus → Bool
  | .idle, _ => true
  | .running, .running => true
  | .running, .done => true
  | .running, .error => true
  | .done, .done => true
  | .error, .error => true
  | _, _ => false

/-- Last element of a list, with a default for the empty list. -/
def lastD : StepStatus → List StepStatus → StepStatus
  | d, [] => d
  | _, e :: es => lastD e es

/-! ## Concrete values used by witnesses and counterexamples -/

/-- A concrete `running` event for step 1 (`data: x` frames decode to it
under `parseDemo`). -/
def mRun1 : Msg := { status := "running", step := Option.some 1 }

/-- A concrete `done` event for step 1. -/
def mDone1 : Msg := { status := "done", step := Option.some 1 }

/-- A concrete step-1 `error` event. -/
def mErr1 : Msg := { status := "error", step := Option.some 1, message := Option.some "boom" }

/-- A concrete `done` event for step 3 carrying only a base-rate field. -/
def mDoneBR : Msg := { status := "done", step := Option.some 3, base_rate := Option.some 12 }

/-- A concrete `complete` event. -/
def mComplete : Msg :=
  { status := "complete",
    brief := Option.some { ticker := "KO", feasibility_score := 55, disclaimer := "edu" } }

/-- A concrete stand-in for `JSON.parse` used by witnesses: the body "x"
parses to the step-1 `running` message, everything else throws. -/
def parseDemo (l : List Char) : Option Msg :=
  if l = ['x'] then Option.some mRun1 else Option.none

/-- A complete frame for `parseDemo`, delimiter included. -/
def frameRun : List Char := "data: x\n\n".toList

/-- A line without the `"data: "` marker. -/
def badLine : List Char := "ping".toList

/-- A properly framed line whose body fails to parse under `parseDemo`. -/
def badJsonLine : List Char := "data: zz".toList

/-- A prefixed fragment that never gets its delimiter. -/
def fragLine : List Char := "data: x".toList

/-! ## Spec-side restatements compared against `detailOf` -/

/-- How many of the five optional summary fields are present in the sense
the code tests them (truthy; `base_rate`: non-null). -/
def presentCount (m : Msg) : Nat :=
  (truthyStr m.ticker).toNat + (truthyNum m.price).toNat + (m.base_rate.isSome).toNat +
    (truthyNum m.risks_found).toNat + (truthyNum m.catalysts_found).toNat

/-- Detail derived from "whichever field is present" when at most one is:
a first-match chain over the five fields, empty when none is present. -/
def pickPresent (m : Msg) : String :=
  if truthyStr m.ticker then renderTicker m
  else if truthyNum m.price then renderPrice m
  else if m.base_rate.isSome then renderBaseRate m
  else if truthyNum m.risks_found then renderRisks m
  else if truthyNum m.catalysts_found then renderCatalysts m
  else ""

/-- The last-wins priority order of the claim: catalyst count over risk
count over base-rate over price-plus-oscillator over ticker. -/
def lastWins (m : Msg) : String :=
  if truthyNum m.catalysts_found then renderCatalysts m
  else if truthyNum m.risks_found then renderRisks m
  else if m.base_rate.isSome then renderBaseRate m
  else if truthyNum m.price then renderPrice m
  else if truthyStr m.ticker then renderTicker m
  else ""

/-! # Helper lemmas -/

theorem scanNN_nil_frames : ∀ (xs : List Char), (scanNN xs).1 = [] → (scanNN xs).2 = xs := by
  intro xs
  induction xs using scanNN.induct with
  | case1 => intro _; rfl
  | case2 c => intro _; rfl
  | case3 c d rest h ih =>
    intro hf
    simp [scanNN, h] at hf
  | case4 c d rest h ih =>
    intro hf
    rcases hA : scanNN (d :: rest) with ⟨A1, A2⟩
    cases A1 with
    | nil =>
      have h2 := ih (by rw [hA])
      rw [hA] at h2
      simp at h2
      simp [scanNN, h, hA, consCur, h2]
    | cons e es =>
      rw [scanNN, if_neg h, hA] at hf
      simp [consCur] at hf

/-- Scanning a concatenation: the frames of `xs` come first, then scanning
restarts on `xs`'s trailing fragment glued to `ys`.  This is the heart of
split-invariance: the fragment popped back into the buffer carries exactly
the scanner state needed to continue. -/
theorem scanNN_append (xs ys : List Char) :
    scanNN (xs ++ ys) =
      ((scanNN xs).1 ++ (scanNN ((scanNN xs).2 ++ ys)).1,
       (scanNN ((scanNN xs).2 ++ ys)).2) := by
  induction xs using scanNN.induct with
  | case1 => simp [scanNN]
  | case2 c => simp [scanNN]
  | case3 c d rest h ih =>
    obtain ⟨rfl, rfl⟩ := h
    simp only [List.cons_append]
    rw [scanNN]
    simp only [if_pos (And.intro rfl rfl)]
    rw [show scanNN ('\n' :: '\n' :: rest) = ([] :: (scanNN rest).1, (scanNN rest).2) from by
      rw [scanNN]; simp]
    simp [ih]
  | case4 c d rest h ih =>
    simp only [List.cons_append]
    rw [scanNN, if_neg h]
    rw [show scanNN (c :: d :: rest) = consCur c (scanNN (d :: rest)) from by
      rw [scanNN, if_neg h]]
    rcases hA : scanNN (d :: rest) with ⟨A1, A2⟩
    rw [hA] at ih
    cases A1 with
    | nil =>
      have h2 : A2 = d :: rest := by
        have := scanNN_nil_frames (d :: rest) (by rw [hA])
        rw [hA] at this; exact this
      subst h2
      show consCur c (scanNN (d :: (rest ++ ys))) =
        ((scanNN (c :: d :: (rest ++ ys))).1, (scanNN (c :: d :: (rest ++ ys))).2)
      rw [show scanNN (c :: d :: (rest ++ ys)) = consCur c (scanNN (d :: (rest ++ ys))) from by
        rw [scanNN, if_neg h]]
    | cons e es =>
      simp only [consCur]
      rw [List.cons_append] at ih
      rw [ih]
      simp [consCur]

theorem scanNN_of_not_hasNN : ∀ (xs : List Char), hasNN xs = false → scanNN xs = ([], xs) := by
  intro xs
  induction xs using scanNN.induct with
  | case1 => intro _; rfl
  | case2 c => intro _; rfl
  | case3 c d rest h ih =>
    intro hn
    obtain ⟨rfl, rfl⟩ := h
    simp [hasNN] at hn
  | case4 c d rest h ih =>
    intro hn
    rw [hasNN] at hn
    simp only [Bool.or_eq_false_iff] at hn
    rw [scanNN, if_neg h, ih hn.2, consCur]

/-- The frames emitted over a nonempty run of the chunk loop are the frames
of the scanned concatenation. -/
theorem feedChunks_cons (cs : List (List Char)) :
    ∀ (buf c : List Char),
      feedChunks buf (c :: cs) = (scanNN (buf ++ c ++ joinAll cs)).1 := by
  induction cs with
  | nil =>
    intro buf c
    simp [feedChunks, joinAll]
  | cons c2 cs2 ih =>
    intro buf c
    rw [feedChunks, ih, joinAll]
    rw [show buf ++ c ++ (c2 ++ joinAll cs2) = (buf ++ c) ++ (c2 ++ joinAll cs2) from by simp]
    rw [scanNN_append (buf ++ c) (c2 ++ joinAll cs2)]
    simp [List.append_assoc]

/-- The frame sequence does not depend on the chunking. -/
theorem feedChunks_split_invariant (chunks : List (List Char)) :
    feedChunks [] chunks = feedChunks [] [joinAll chunks] := by
  cases chunks with
  | nil => simp [feedChunks, joinAll, scanNN]
  | cons c cs =>
    rw [feedChunks_cons, feedChunks_cons]
    simp [joinAll]

theorem joinAll_append (a b : List (List Char)) :
    joinAll (a ++ b) = joinAll a ++ joinAll b := by
  induction a with
  | nil => simp [joinAll]
  | cons c cs ih => simp [joinAll, ih]

theorem processLines_append (parse : List Char → Option Msg) (st : ClientState)
    (a b : List (List Char)) :
    processLines parse st (a ++ b) = processLines parse (processLines parse st a) b := by
  simp [processLines, List.foldl_append]

/-- The chunk loop applied to its frames one round at a time equals one
fold over the whole frame sequence. -/
theorem clientLoop_eq (parse : List Char → Option Msg) :
    ∀ (cs : List (List Char)) (st : ClientState) (buf : List Char),
      clientLoop parse st buf cs = processLines parse st (feedChunks buf cs) := by
  intro cs
  induction cs with
  | nil => intro st buf; rfl
  | cons c cs2 ih =>
    intro st buf
    rw [clientLoop, feedChunks, processLines_append, ih]

theorem find?_map_pred (f : Step → Step) (p : Step → Bool) (hf : ∀ s, p (f s) = p s) :
    ∀ (l : List Step), (l.map f).find? p = (l.find? p).map f := by
  intro l
  induction l with
  | nil => simp
  | cons a l2 ih =>
    by_cases h : p a
    · simp [List.find?_cons, hf, h]
    · simp [List.find?_cons, hf, h, ih]

theorem updateStep_none (status : StepStatus) (detail : String) (steps : List Step) :
    updateStep Option.none status detail steps = steps := by
  simp [updateStep]

theorem updateStep_find? (k : Int) (status : StepStatus) (detail : String)
    (steps : List Step) (p : Step → Bool) (hp : ∀ s st d, p { s with status := st, detail := d } = p s) :
    (updateStep (Option.some k) status detail steps).find? p =
      (steps.find? p).map
        (fun s => if Option.some s.id = Option.some k then { s with status := status, detail := detail } else s) := by
  apply find?_map_pred
  intro s
  by_cases h : Option.some s.id = Option.some k
  · simp [h, hp]
  · simp [h]

theorem stFind_updateStep (steps : List Step) (i k : Int) (status : StepStatus) (detail : String) :
    stFind (updateStep (Option.some k) status detail steps) i =
      if i = k ∧ ((steps.find? (fun s => s.id == i)).isSome) then status
      else stFind steps i := by
  rw [stFind, updateStep_find? k status detail steps _ (by intro s st d; simp)]
  cases hf : steps.find? (fun s => s.id == i) with
  | none => simp [stFind, hf]
  | some s0 =>
    have hid : s0.id = i := by
      have := List.find?_some hf
      simpa using this
    by_cases hik : i = k
    · simp [hik, hid, stFind, hf]
    · have hne : s0.id ≠ k := by rw [hid]; exact hik
      simp [hne, stFind, hf, hik]

theorem updateStep_find?_isSome (o : Option Int) (status : StepStatus) (detail : String)
    (steps : List Step) (i : Int) :
    ((updateStep o status detail steps).find? (fun s => s.id == i)).isSome =
      ((steps.find? (fun s => s.id == i)).isSome) := by
  cases o with
  | none => rw [updateStep_none]
  | some k =>
    rw [updateStep_find? k status detail steps _ (by intro s st d; simp)]
    cases steps.find? (fun s => s.id == i) <;> simp

theorem applyMsg_find?_isSome (st : ClientState) (m : Msg) (i : Int) :
    (((applyMsg st m).steps.find? (fun s => s.id == i)).isSome) =
      ((st.steps.find? (fun s => s.id == i)).isSome) := by
  rw [applyMsg]
  split
  · exact updateStep_find?_isSome _ _ _ _ _
  · split
    · exact updateStep_find?_isSome _ _ _ _ _
    · split
      · rfl
      · split
        · split
          · exact updateStep_find?_isSome _ _ _ _ _
          · rfl
        · rfl

/-- Effect of a single dispatched message on the status of step `i`: the
status written by `stepEv`, when the step exists; otherwise no change. -/
theorem stFind_applyMsg (st : ClientState) (m : Msg) (i : Int) :
    stFind (applyMsg st m).steps i =
      match stepEv i m with
      | Option.none => stFind st.steps i
      | Option.some e =>
        if ((st.steps.find? (fun s => s.id == i)).isSome) then e
        else stFind st.steps i := by
  by_cases h1 : m.status = "running"
  · cases hstep : m.step with
    | none => simp [applyMsg, h1, updateStep_none, stepEv, hstep]
    | some k =>
      by_cases h2 : k = i
      · subst h2
        simp [applyMsg, h1, hstep, stepEv, stFind_updateStep]
      · have h2i : ¬ (i = k) := fun hh => h2 hh.symm
        simp [applyMsg, h1, hstep, stepEv, stFind_updateStep, h2, h2i]
  · by_cases h2 : m.status = "done"
    · cases hstep : m.step with
      | none => simp [applyMsg, h1, h2, updateStep_none, stepEv, hstep]
      | some k =>
        by_cases h3 : k = i
        · subst h3
          simp [applyMsg, h1, h2, hstep, stepEv, stFind_updateStep]
        · have h3i : ¬ (i = k) := fun hh => h3 hh.symm
          simp [applyMsg, h1, h2, hstep, stepEv, stFind_updateStep, h3, h3i]
    · by_cases h3 : m.status = "complete"
      · simp [applyMsg, h1, h2, h3, stepEv]
      · by_cases h4 : m.status = "error"
        · by_cases hz : jsGtZero m.step
          · cases hstep : m.step with
            | none => rw [hstep] at hz; simp [jsGtZero] at hz
            | some k =>
              by_cases h5 : k = i
              · subst h5
                rw [hstep] at hz
                simp [applyMsg, h1, h2, h4, hstep, hz, stepEv, stFind_updateStep]
              · have h5i : ¬ (i = k) := fun hh => h5 hh.symm
                rw [hstep] at hz
                simp [applyMsg, h1, h2, h4, hstep, hz, stepEv, stFind_updateStep, h5, h5i]
          · cases hstep : m.step with
            | none => simp [applyMsg, h1, h2, h4, hstep, hz, stepEv, jsGtZero]
            | some k =>
              rw [hstep] at hz
              simp [applyMsg, h1, h2, h4, hstep, hz, stepEv]
        · simp [applyMsg, h1, h2, h3, h4, stepEv]

/-- Status of step `i` after a whole message sequence: the last projected
event for `i` (or the starting status when there is none), provided step
`i` exists in the panel; otherwise unchanged. -/
theorem stFind_applyMsgs :
    ∀ (ms : List Msg) (st : ClientState) (i : Int),
      stFind (applyMsgs st ms).steps i =
        if ((st.steps.find? (fun s => s.id == i)).isSome)
        then lastD (stFind st.steps i) (projEv i ms)
        else stFind st.steps i := by
  intro ms
  induction ms with
  | nil =>
    intro st i
    by_cases h : ((st.steps.find? (fun s => s.id == i)).isSome) <;>
      simp [applyMsgs, projEv, lastD, h]
  | cons m ms2 ih =>
    intro st i
    have hstep : applyMsgs st (m :: ms2) = applyMsgs (applyMsg st m) ms2 := by
      simp [applyMsgs]
    rw [hstep, ih, applyMsg_find?_isSome, stFind_applyMsg]
    by_cases h : ((st.steps.find? (fun s => s.id == i)).isSome)
    · cases he : stepEv i m with
      | none => simp [projEv, he, h]
      | some e => simp [projEv, he, h, lastD]
    · cases he : stepEv i m <;> simp [projEv, he, h]

theorem stFind_init (i : Int) : stFind initState.steps i = .idle := by
  rw [initState, stFind]
  cases hf : List.find? (fun s => s.id == i) STEPS with
  | none => rfl
  | some s =>
    have hmem := List.mem_of_find?_eq_some hf
    simp only [STEPS, List.mem_cons, List.not_mem_nil, or_false] at hmem
    rcases hmem with rfl | rfl | rfl | rfl | rfl | rfl <;> rfl

theorem statusLe_refl (s : StepStatus) : statusLe s s = true := by
  cases s <;> rfl

theorem statusLe_trans (a b c : StepStatus) :
    statusLe a b = true → statusLe b c = true → statusLe a c = true := by
  cases a <;> cases b <;> cases c <;> simp [statusLe]

theorem stepTrans_le (a b : StepStatus) : stepTrans a b = true → statusLe a b = true := by
  cases a <;> cases b <;> simp [stepTrans, statusLe]

theorem lastD_append (u v : List StepStatus) :
    ∀ (d : StepStatus), lastD d (u ++ v) = lastD (lastD d u) v := by
  induction u with
  | nil => intro d; rfl
  | cons e u2 ih => intro d; rw [List.cons_append, lastD, lastD, ih]

/-- A well-formed word never leaves the reachability order. -/
theorem wfFrom_lastD_le :
    ∀ (w : List StepStatus) (s : StepStatus),
      wfFrom s w = true → statusLe s (lastD s w) = true := by
  intro w
  induction w with
  | nil => intro s _; exact statusLe_refl s
  | cons e es ih =>
    intro s hw
    rw [wfFrom, Bool.and_eq_true] at hw
    rw [lastD]
    exact statusLe_trans s e (lastD e es) (stepTrans_le s e hw.1) (ih e hw.2)

theorem wfFrom_append :
    ∀ (u : List StepStatus) (s : StepStatus) (v : List StepStatus),
      wfFrom s (u ++ v) = true → wfFrom (lastD s u) v = true := by
  intro u
  induction u with
  | nil => intro s v h; exact h
  | cons e u2 ih =>
    intro s v h
    rw [List.cons_append, wfFrom, Bool.and_eq_true] at h
    rw [lastD]
    exact ih e v h.2

theorem projEv_append (i : Int) (a b : List Msg) :
    projEv i (a ++ b) = projEv i a ++ projEv i b := by
  simp [projEv]

theorem feedChunks_drop_fragment (chunks : List (List Char)) (f : List Char)
    (hf : hasNN f = false) (hclean : (scanNN (joinAll chunks)).2 = []) :
    feedChunks [] (chunks ++ [f]) = feedChunks [] chunks := by
  cases chunks with
  | nil =>
    simp [feedChunks, scanNN_of_not_hasNN f hf]
  | cons c cs =>
    rw [show (c :: cs) ++ [f] = c :: (cs ++ [f]) from rfl]
    rw [feedChunks_cons, feedChunks_cons, joinAll_append]
    rw [show joinAll [f] = f from by simp [joinAll]]
    rw [show ([] : List Char) ++ c ++ (joinAll cs ++ f) = (([] : List Char) ++ c ++ joinAll cs) ++ f from by
      simp]
    rw [scanNN_append]
    rw [show ([] : List Char) ++ c ++ joinAll cs = joinAll (c :: cs) from by simp [joinAll]]
    rw [hclean]
    simp [scanNN_of_not_hasNN f hf]

/-! # Claim theorems -/

/-- C1: Split-invariance of the event-stream decoder — for every character
sequence and every partition of it into chunks, feeding the chunks one at a
time through the rolling-buffer decode loop yields the same ordered
sequence of parsed events as decoding the whole sequence as one block. -/
theorem stream_decode_split_invariant (parse : List Char → Option Msg)
    (chunks : List (List Char)) :
    streamEvents parse chunks = streamEvents parse [joinAll chunks] := by
  rw [streamEvents, streamEvents, feedChunks_split_invariant]

/-- C9: if the stream ends while the rolling buffer holds a nonempty
fragment never followed by the blank-line delimiter, that fragment is
silently discarded: the decoded event sequence and the final client state
are those of the stream without the fragment, and the fragment is exactly
the dropped final buffer content. -/
theorem trailing_fragment_discarded (parse : List Char → Option Msg)
    (chunks : List (List Char)) (f : List Char)
    (hf : hasNN f = false) (_hne : f ≠ [])
    (hclean : (scanNN (joinAll chunks)).2 = []) :
    streamEvents parse (chunks ++ [f]) = streamEvents parse chunks ∧
    (scanNN (joinAll (chunks ++ [f]))).2 = f ∧
    clientRun parse (chunks ++ [f]) = clientRun parse chunks := by
  have hframes := feedChunks_drop_fragment chunks f hf hclean
  refine ⟨?_, ?_, ?_⟩
  · rw [streamEvents, streamEvents, hframes]
  · rw [joinAll_append, show joinAll [f] = f from by simp [joinAll], scanNN_append, hclean]
    simp [scanNN_of_not_hasNN f hf]
  · rw [clientRun, clientRun, clientLoop_eq, clientLoop_eq, hframes]

/-- C9 witness: a complete step-1 frame followed by a never-terminated
`data: x` fragment decodes to the same events and state as the complete
frame alone. -/
theorem trailing_fragment_discarded_wit :
    streamEvents parseDemo ([frameRun] ++ [fragLine]) = streamEvents parseDemo [frameRun] ∧
    (scanNN (joinAll ([frameRun] ++ [fragLine]))).2 = fragLine ∧
    clientRun parseDemo ([frameRun] ++ [fragLine]) = clientRun parseDemo [frameRun] :=
  trailing_fragment_discarded parseDemo [frameRun] fragLine (by decide) (by decide) (by decide)

/-- C3: a frame without the `"data: "` marker yields no message, a marked
frame whose body fails to parse yields no message, and a frame that yields
no message leaves the state unchanged while the remaining frames are still
processed — a bad frame never aborts the stream. -/
theorem bad_frames_skipped (parse : List Char → Option Msg) (st : ClientState)
    (l : List Char) (rest : List (List Char)) :
    (l.take 6 ≠ dataMarker → handleLine parse l = Option.none) ∧
    (parse (l.drop 6) = Option.none → handleLine parse l = Option.none) ∧
    (handleLine parse l = Option.none →
      processLines parse st (l :: rest) = processLines parse st rest) := by
  refine ⟨?_, ?_, ?_⟩
  · intro h
    simp [handleLine, h]
  · intro h
    by_cases hp : l.take 6 = dataMarker <;> simp [handleLine, hp, h]
  · intro h
    simp [processLines, List.foldl_cons, h]

/-- C3 witness: an unmarked line and a marked-but-unparseable line are both
skipped without affecting how the following well-formed line is
processed. -/
theorem bad_frames_skipped_wit :
    processLines parseDemo initState [badLine, fragLine] =
      processLines parseDemo initState [fragLine] ∧
    processLines parseDemo initState [badJsonLine, fragLine] =
      processLines parseDemo initState [fragLine] :=
  ⟨(bad_frames_skipped parseDemo initState badLine [fragLine]).2.2
      ((bad_frames_skipped parseDemo initState badLine [fragLine]).1 (by decide)),
   (bad_frames_skipped parseDemo initState badJsonLine [fragLine]).2.2
      ((bad_frames_skipped parseDemo initState badJsonLine [fragLine]).2.1 (by decide))⟩

/-- C2 counterexample: the per-step update is an unconditional overwrite,
so for the adversarial event sequence `error(1)` then `done(1)` step 1 is
first `error` and then becomes `done` — the claimed monotonicity does not
hold for arbitrary incoming event sequences. -/
theorem step_update_not_monotone_cex :
    stFind (applyMsgs initState [mErr1]).steps 1 = .error ∧
    stFind (applyMsgs initState [mErr1, mDone1]).steps 1 = .done := by
  constructor <;> rfl

/-- C2 (amended): for event sequences whose per-step projection follows the
protocol (zero-or-one `running`, then at most one terminal event, nothing
after), the status of every step only moves forward along
`idle → running → {done | error}`: comparing any prefix of the stream with
the whole stream, a step never leaves a terminal state and never returns to
`running`. -/
theorem step_update_monotone_of_wellformed (msgs a b : List Msg) (i : Int)
    (hab : msgs = a ++ b)
    (hwf : wfFrom .idle (projEv i msgs) = true) :
    statusLe (stFind (applyMsgs initState a).steps i)
      (stFind (applyMsgs initState msgs).steps i) = true := by
  subst hab
  rw [stFind_applyMsgs, stFind_applyMsgs, stFind_init]
  by_cases h : ((initState.steps.find? (fun s => s.id == i)).isSome)
  · rw [if_pos h, if_pos h, projEv_append, lastD_append]
    refine wfFrom_lastD_le (projEv i b) (lastD .idle (projEv i a)) ?_
    refine wfFrom_append (projEv i a) .idle (projEv i b) ?_
    rw [← projEv_append]
    exact hwf
  · rw [if_neg h, if_neg h]
    exact statusLe_refl _

/-- C2 witness: along the well-formed stream `running(1)` then `done(1)`,
step 1's status after the first event is below its final status. -/
theorem step_update_monotone_wit :
    statusLe (stFind (applyMsgs initState [mRun1]).steps 1)
      (stFind (applyMsgs initState [mRun1, mDone1]).steps 1) = true :=
  step_update_monotone_of_wellformed [mRun1, mDone1] [mRun1] [mDone1] 1 rfl (by decide)

/-- C4: a `done(step, fields)` event marks that step done with the derived
detail string, and when at most one optional summary field is present (in
the sense the code tests presence: truthy, or non-null for the base rate)
the detail is derived from that field — the empty string when none is
present. -/
theorem done_detail_from_present_field (st : ClientState) (m : Msg)
    (hs : m.status = "done") (hone : presentCount m ≤ 1) :
    (applyMsg st m).steps = updateStep m.step .done (detailOf m) st.steps ∧
    detailOf m = pickPresent m := by
  constructor
  · simp [applyMsg, hs]
  · cases h1 : truthyStr m.ticker <;> cases h2 : truthyNum m.price <;>
      cases h3 : m.base_rate.isSome <;> cases h4 : truthyNum m.risks_found <;>
      cases h5 : truthyNum m.catalysts_found <;>
      simp_all [detailOf, pickPresent, presentCount]

/-- C4 witness: a `done` event for step 3 carrying only a base-rate field
marks step 3 done with the base-rate detail. -/
theorem done_detail_from_present_field_wit :
    (applyMsg initState mDoneBR).steps =
      updateStep mDoneBR.step .done (detailOf mDoneBR) initState.steps ∧
    detailOf mDoneBR = pickPresent mDoneBR :=
  done_detail_from_present_field initState mDoneBR rfl (by decide)

/-- C10: the detail of a `done` event is decided by last-wins priority —
catalyst count over risk count over base rate over price-plus-oscillator
over ticker — and a falsy field value (price 0, count 0, empty ticker)
counts as absent, while a base rate of 0 (non-null) still counts as
present. -/
theorem detail_last_wins_priority (m : Msg) :
    detailOf m = lastWins m ∧
    detailOf { m with price := Option.some 0 } = detailOf { m with price := Option.none } ∧
    detailOf { m with risks_found := Option.some 0 } =
      detailOf { m with risks_found := Option.none } ∧
    detailOf { m with catalysts_found := Option.some 0 } =
      detailOf { m with catalysts_found := Option.none } ∧
    detailOf { m with ticker := Option.some "" } = detailOf { m with ticker := Option.none } ∧
    detailOf { m with base_rate := Option.some 0, risks_found := Option.none,
                      catalysts_found := Option.none } = "→ base rate 0%" := by
  refine ⟨?_, ?_, ?_, ?_, ?_, ?_⟩
  · cases h1 : truthyStr m.ticker <;> cases h2 : truthyNum m.price <;>
      cases h3 : m.base_rate.isSome <;> cases h4 : truthyNum m.risks_found <;>
      cases h5 : truthyNum m.catalysts_found <;>
      simp_all [detailOf, lastWins]
  · simp [detailOf, truthyNum, renderTicker, renderBaseRate, renderRisks, renderCatalysts]
  · simp [detailOf, truthyNum, renderTicker, renderPrice, renderBaseRate, renderCatalysts]
  · simp [detailOf, truthyNum, renderTicker, renderPrice, renderBaseRate, renderRisks]
  · simp [detailOf, truthyStr, renderPrice, renderBaseRate, renderRisks, renderCatalysts]
  · simp only [detailOf, truthyNum, renderBaseRate]
    norm_num
    rfl

/-- C5: an `error(step, message)` event with positive step marks exactly
that step failed with the message and clears the loading flag; with step 0
it records the pipeline-level error without touching any step, also
clearing the loading flag; and steps other than the named one are never
affected. -/
theorem error_event_routing (st : ClientState) (m : Msg) (hs : m.status = "error") :
    (∀ (k : Int), m.step = Option.some k → 0 < k →
      applyMsg st m =
        { st with steps := updateStep (Option.some k) .error (m.message.getD "") st.steps,
                  loading := false }) ∧
    (m.step = Option.some 0 →
      applyMsg st m = { st with error := Option.some (msgOrDefault m), loading := false }) ∧
    (∀ (i k : Int), m.step = Option.some k → i ≠ k →
      stFind (applyMsg st m).steps i = stFind st.steps i) := by
  refine ⟨?_, ?_, ?_⟩
  · intro k hk hpos
    simp [applyMsg, hs, hk, jsGtZero, hpos]
  · intro hk
    simp [applyMsg, hs, hk, jsGtZero]
  · intro i k hk hik
    have hki : ¬ (k = i) := fun hh => hik hh.symm
    rw [stFind_applyMsg]
    have hnone : stepEv i m = Option.none := by
      simp [stepEv, hs, hk, hki]
    rw [hnone]

/-- C5 witness: a concrete step-1 error event marks step 1 failed with its
message and stops loading. -/
theorem error_event_routing_wit :
    applyMsg initState mErr1 =
      { initState with
          steps := updateStep (Option.some 1) .error (mErr1.message.getD "") initState.steps,
          loading := false } :=
  (error_event_routing initState mErr1 rfl).1 1 rfl (by decide)

/-- C6 counterexample: the loop is not exited on `complete`; a `running`
event decoded after `complete` still changes the client state, so "stops
listening — no event arriving after the complete event changes the
client's state" fails on the code. -/
theorem complete_then_event_changes_state_cex :
    stFind (applyMsgs initState [mComplete]).steps 1 = .idle ∧
    stFind (applyMsgs initState [mComplete, mRun1]).steps 1 = .running ∧
    applyMsgs initState [mComplete, mRun1] ≠ applyMsgs initState [mComplete] := by
  refine ⟨rfl, rfl, by decide⟩

/-- C6 (amended): on `complete(brief)` the client stores the brief and
clears the loading flag; it does not stop reading — a message decoded
after `complete` is dispatched against the updated state like any
other. -/
theorem complete_stores_brief (st : ClientState) (m : Msg) (hs : m.status = "complete") :
    applyMsg st m = { st with brief := m.brief, loading := false } ∧
    ∀ (ms : List Msg),
      applyMsgs st (m :: ms) = applyMsgs { st with brief := m.brief, loading := false } ms := by
  have h1 : applyMsg st m = { st with brief := m.brief, loading := false } := by
    simp [applyMsg, hs]
  exact ⟨h1, fun ms => by simp [applyMsgs, List.foldl_cons, h1]⟩

/-- C6 witness: the concrete `complete` event stores its brief into the
fresh page state and ends loading. -/
theorem complete_stores_brief_wit :
    applyMsg initState mComplete = { initState with brief := mComplete.brief, loading := false } :=
  (complete_stores_brief initState mComplete rfl).1

theorem clampInt_bounds (lo hi x : Int) (h : lo ≤ hi) :
    lo ≤ clampInt lo hi x ∧ clampInt lo hi x ≤ hi :=
  ⟨le_max_left lo _, max_le h (min_le_left hi x)⟩

/-- C7: every synthesized brief's `feasibility_score` is an integer in
[0, 100], and it decomposes as the clamp to [0, 100] of the sum of three
bounded sub-scores: a base-rate component in [0, 40], a technical component
in [0, 30] and a realism component in [0, 30]. -/
theorem feasibility_score_bounds (baseRateSub techSub realismSub : Int)
    (tick hyp summary disclaimer : String) :
    0 ≤ (synthesizeBrief tick hyp baseRateSub techSub realismSub summary
          disclaimer).feasibility_score ∧
    (synthesizeBrief tick hyp baseRateSub techSub realismSub summary
          disclaimer).feasibility_score ≤ 100 ∧
    ∃ (b t r : Int), 0 ≤ b ∧ b ≤ 40 ∧ 0 ≤ t ∧ t ≤ 30 ∧ 0 ≤ r ∧ r ≤ 30 ∧
      (synthesizeBrief tick hyp baseRateSub techSub realismSub summary
          disclaimer).feasibility_score = clampInt 0 100 (b + t + r) := by
  refine ⟨(clampInt_bounds 0 100 _ (by norm_num)).1,
          (clampInt_bounds 0 100 _ (by norm_num)).2,
          clampInt 0 40 baseRateSub, clampInt 0 30 techSub, clampInt 0 30 realismSub,
          (clampInt_bounds 0 40 baseRateSub (by norm_num)).1,
          (clampInt_bounds 0 40 baseRateSub (by norm_num)).2,
          (clampInt_bounds 0 30 techSub (by norm_num)).1,
          (clampInt_bounds 0 30 techSub (by norm_num)).2,
          (clampInt_bounds 0 30 realismSub (by norm_num)).1,
          (clampInt_bounds 0 30 realismSub (by norm_num)).2,
          rfl⟩

/-- C8: the non-streaming pipeline variant agrees with the streaming one —
for every choice of stage handlers and every request, the single buffered
response of `runSync` is exactly the terminal outcome of the streamed run,
and the stream carries exactly one terminal event. -/
theorem sync_variant_refines_stream (h : Handlers) (req : String) :
    terminalOf (runStream h req) = Option.some (runSync h req) ∧
    countTerminals (runStream h req) = 1 := by
  cases hp : h.parseStage req with
  | error m =>
    simp [runStream, runSync, hp, terminalOf, countTerminals, isTerminal]
  | ok c1 =>
    cases hm : h.marketStage c1 with
    | error m =>
      simp [runStream, runSync, hp, hm, terminalOf, countTerminals, isTerminal]
    | ok c2 =>
      cases hh : h.historyStage c2 with
      | error m =>
        simp [runStream, runSync, hp, hm, hh, terminalOf, countTerminals, isTerminal]
      | ok c3 =>
        cases hbear : h.bearStage c3 with
        | error m =>
          simp [runStream, runSync, hp, hm, hh, hbear, terminalOf, countTerminals, isTerminal]
        | ok bear =>
          cases hbull : h.bullStage c3 with
          | error m =>
            simp [runStream, runSync, hp, hm, hh, hbear, hbull, terminalOf, countTerminals,
              isTerminal]
          | ok bull =>
            cases hsyn : h.synthStage c3 bear bull with
            | error m =>
              simp [runStream, runSync, hp, hm, hh, hbear, hbull, hsyn, terminalOf,
                countTerminals, isTerminal]
            | ok b =>
              simp [runStream, runSync, hp, hm, hh, hbear, hbull, hsyn, terminalOf,
                countTerminals, isTerminal]

end TradeSenpai
